import Mathlib

/-!
Verification of the property-search desktop tool (src/property_search.py).

The Python source is shallowly embedded below.  Numbers produced by
Python's `float` are modelled as exact rationals (`Rat`); the claims
settled here never depend on binary floating-point rounding, `inf`/`nan`
literals or digit underscores, so those aspects of `float` are out of
scope.  Strings are Lean `String`s (Python `str.strip`'s extra Unicode
whitespace classes beyond ASCII whitespace are not modelled; no claim
involves them).
-/

namespace PropertySearch

/-- Characters removed by Python `str.strip()` (ASCII whitespace). -/
def isWS (c : Char) : Bool := c.isWhitespace

/-- Python `str.strip()` on a character list: drop leading and trailing
whitespace. -/
def pyStrip (l : List Char) : List Char :=
  ((l.reverse.dropWhile isWS).reverse).dropWhile isWS

/-- Python `str.strip()` on a `String`. -/
def pyStripS (s : String) : String := String.mk (pyStrip s.toList)

/-- Numeric value of a digit run, e.g. `['0','0','7'] ↦ 7`. -/
def digitsVal (d : List Char) : Nat :=
  d.foldl (fun a c => 10 * a + (c.toNat - 48)) 0

/-- The optional fractional part `(\.\d+)?` tried right after the integer
digit run: it matches exactly when the remainder starts with `'.'`
followed by at least one digit, and then takes the maximal digit run
(greedy). -/
def fracPart : List Char → Option (List Char)
  | [] => none
  | c :: r2 =>
    if c = '.' then
      let f := r2.takeWhile Char.isDigit
      if f.isEmpty then none else some f
    else none

/-- The text matched by `re.search(r"\d+(\.\d+)?", ·)` starting at a digit:
the maximal digit run, plus the optional fractional digit run.  Returns
`(integer digits, optional fraction digits)`.  Embeds the regex in `num`,
src/property_search.py line 37. -/
def grabTok (l : List Char) : List Char × Option (List Char) :=
  (l.takeWhile Char.isDigit, fracPart (l.dropWhile Char.isDigit))

/-- Leftmost match of `re.search(r"\d+(\.\d+)?", ·)`: scan to the first
digit and grab the token there; `none` when the text has no digit. -/
def searchNum : List Char → Option (List Char × Option (List Char))
  | [] => none
  | c :: rest => if c.isDigit then some (grabTok (c :: rest)) else searchNum rest

/-- Exact value of a matched numeric token (Python `float(m.group())`,
modelled exactly over `Rat`). -/
def tokVal : List Char × Option (List Char) → Rat
  | (d, none) => (digitsVal d : Rat)
  | (d, some f) => (digitsVal d : Rat) + (digitsVal f : Rat) / ((10 : Rat) ^ f.length)

/-- `num(v)` from src/property_search.py lines 31-38: `None` input gives
`None`; otherwise strip, return `None` on an empty result, else search for
the first `\d+(\.\d+)?` substring and convert it, `None` when absent. -/
def num (v : Option String) : Option Rat :=
  match v with
  | none => none
  | some s =>
    let t := pyStrip s.toList
    if t.isEmpty then none
    else
      match searchNum t with
      | none => none
      | some tok => some (tokVal tok)

/-- Nothing at the start of `rest` can extend an integer match `\d+` that
ends right before `rest`: no further digit, and no `.digit` pair that the
optional group `(\.\d+)?` would consume. -/
def noIntExtend : List Char → Bool
  | [] => true
  | c :: r => !c.isDigit && (if c = '.' then !((r.headD ' ').isDigit) else true)

/-- Nothing at the start of `rest` can extend a fractional digit run that
ends right before `rest`. -/
def noFracExtend : List Char → Bool
  | [] => true
  | c :: _ => !c.isDigit

/-- Mantissa of a Python `float` literal: digits with an optional
`'.' digits` part (at least one digit overall), returning its exact value
and the unconsumed remainder. -/
def pyFloatMant (l : List Char) : Option (Rat × List Char) :=
  let ip := l.takeWhile Char.isDigit
  match l.dropWhile Char.isDigit with
  | '.' :: r2 =>
    let fp := r2.takeWhile Char.isDigit
    if ip.isEmpty && fp.isEmpty then none
    else
      some ((digitsVal ip : Rat) + (digitsVal fp : Rat) / ((10 : Rat) ^ fp.length),
            r2.dropWhile Char.isDigit)
  | rest => if ip.isEmpty then none else some ((digitsVal ip : Rat), rest)

/-- Exponent suffix of a Python `float` literal: empty, or
`(e|E)(+|-)? digits`, which must consume the whole remainder. -/
def pyFloatExp (m : Rat) (l : List Char) : Option Rat :=
  match l with
  | [] => some m
  | c :: r =>
    if c = 'e' || c = 'E' then
      let (neg, r1) : Bool × List Char :=
        match r with
        | '+' :: r2 => (false, r2)
        | '-' :: r2 => (true, r2)
        | _ => (false, r)
      let ed := r1.takeWhile Char.isDigit
      if ed.isEmpty || !(r1.dropWhile Char.isDigit).isEmpty then none
      else
        some (if neg then m / ((10 : Rat) ^ digitsVal ed)
              else m * ((10 : Rat) ^ digitsVal ed))
    else none

/-- Python's `float(s)` builtin as used at src/property_search.py line 192:
strip, optional sign, decimal mantissa, optional exponent; `none` when the
whole string is not a valid float literal (Python raises `ValueError`
there).  Finite decimal literals only, valued exactly in `Rat`. -/
def pyFloat (s : String) : Option Rat :=
  let l := pyStrip s.toList
  let (neg, l1) : Bool × List Char :=
    match l with
    | '+' :: r => (false, r)
    | '-' :: r => (true, r)
    | _ => (false, l)
  match pyFloatMant l1 with
  | none => none
  | some (m, l2) =>
    match pyFloatExp m l2 with
    | none => none
    | some v => some (if neg then -v else v)

end PropertySearch

namespace PropertySearch

/-! ## Listing table, filter engine (src/property_search.py lines 107-141) -/

/-- Python `list[i]`: `IndexError` (modelled as `Except.error`) when out of
range.  Indices produced by `headers.index` are non-negative, so negative
indexing is out of scope. -/
def pyGetE (r : List String) (i : Nat) : Except Unit String :=
  if h : i < r.length then .ok r[i] else .error ()

/-- Python `row[idx.get(name)]`: when the dictionary lookup returned `None`,
indexing a list with `None` raises `TypeError`. -/
def pyGetOptE (r : List String) : Option Nat → Except Unit String
  | none => .error ()
  | some i => pyGetE r i

/-- First index of `x` in `l` (Python `list.index` / the `idx` dictionary
built at line 111), `none` when absent (`idx.get(...)`). -/
def idxOf (l : List String) (x : String) : Option Nat :=
  match l with
  | [] => none
  | y :: ys => if y = x then some 0 else (idxOf ys x).map (· + 1)

/-- Python `idx[name]`: `KeyError` when the column is absent. -/
def dictIdxE (l : List String) (x : String) : Except Unit Nat :=
  match idxOf l x with
  | some i => .ok i
  | none => .error ()

/-- Python `a < b` where `b : float | None`: `TypeError` when `b` is `None`
(lines 122-130 compare against `num(var.get())`, which can be `None`). -/
def pyLtE (a : Rat) : Option Rat → Except Unit Bool
  | some q => .ok (decide (a < q))
  | none => .error ()

/-- Python `a > b` where `b : float | None`. -/
def pyGtE (a : Rat) : Option Rat → Except Unit Bool
  | some q => .ok (decide (a > q))
  | none => .error ()

/-- Python substring test `needle in hay` specialised to lists of
characters. -/
def startsWithL : List Char → List Char → Bool
  | [], _ => true
  | _ :: _, [] => false
  | a :: as, b :: bs => a = b && startsWithL as bs

/-- Python `needle in hay` for strings: `needle` occurs contiguously in
`hay` (the empty needle always occurs). -/
def containsL (needle : List Char) : List Char → Bool
  | [] => needle.isEmpty
  | c :: hay => startsWithL needle (c :: hay) || containsL needle hay

/-- The snapshot of the eight filter input variables (tk `StringVar`s, so
all are strings; the empty string is Python-falsy and disables the
predicate). -/
structure Criteria where
  county : String
  town : String
  bed : String
  bath : String
  priceMin : String
  priceMax : String
  sqft : String
  remarks : String
deriving DecidableEq

/-- Line 118: `county_var.get() and r[idx["COUNTY"]] != county_var.get()`.
Result `true` means the row is rejected by this predicate. -/
def countyCheck (hs : List String) (c : Criteria) (r : List String) : Except Unit Bool :=
  if c.county = "" then .ok false
  else do
    let ci ← dictIdxE hs "COUNTY"
    let v ← pyGetE r ci
    pure (decide (v ≠ c.county))

/-- Line 120: `town_var.get() and town_idx is not None and r[town_idx] != town_var.get()`. -/
def townCheck (hs : List String) (c : Criteria) (r : List String) : Except Unit Bool :=
  if c.town = "" then .ok false
  else
    match idxOf hs "TOWN_NUM" with
    | none => .ok false
    | some ti => do
      let v ← pyGetE r ti
      pure (decide (v ≠ c.town))

/-- Lines 122-126, 130: the shared shape of the numeric lower-bound
predicates `(num(r[idx.get(F)]) or 0) < num(input)` guarded by input
truthiness.  A `None` row value is coerced to `0` by `or 0`. -/
def lowerBoundCheck (field : String) (input : String) (hs : List String)
    (r : List String) : Except Unit Bool :=
  if input = "" then .ok false
  else do
    let cell ← pyGetOptE r (idxOf hs field)
    pyLtE ((num (some cell)).getD 0) (num (some input))

/-- Line 128: `price_max.get() and (num(r[idx.get("LIST_PRICE")]) or 0) > num(price_max.get())`. -/
def priceMaxCheck (hs : List String) (c : Criteria) (r : List String) : Except Unit Bool :=
  if c.priceMax = "" then .ok false
  else do
    let cell ← pyGetOptE r (idxOf hs "LIST_PRICE")
    pyGtE ((num (some cell)).getD 0) (num (some c.priceMax))

/-- Lines 132-134: case-insensitive substring match on `REMARKS`. -/
def remarksCheck (hs : List String) (c : Criteria) (r : List String) : Except Unit Bool :=
  if c.remarks = "" then .ok false
  else
    match idxOf hs "REMARKS" with
    | none => .ok false
    | some ri => do
      let v ← pyGetE r ri
      pure (!containsL c.remarks.toLower.toList v.toLower.toList)

/-- One iteration of the `for r in all_rows` loop of `apply_filters`
(lines 116-139): the predicates run in source order, the first one that
fires `continue`s (row rejected, result `false`); an exception anywhere is
propagated (`Except.error`).  Result `true` means the row is appended. -/
def rowPasses (hs : List String) (c : Criteria) (r : List String) : Except Unit Bool := do
  if (← countyCheck hs c r) then return false
  if (← townCheck hs c r) then return false
  if (← lowerBoundCheck "NO_BEDROOMS" c.bed hs r) then return false
  if (← lowerBoundCheck "NO_BATHS" c.bath hs r) then return false
  if (← lowerBoundCheck "LIST_PRICE" c.priceMin hs r) then return false
  if (← priceMaxCheck hs c r) then return false
  if (← lowerBoundCheck "SQUARE_FEET" c.sqft hs r) then return false
  if (← remarksCheck hs c r) then return false
  return true

/-- `apply_filters` (lines 107-141) as a function of the listing table: a
row is kept when every predicate passes; a row whose evaluation raises is
excluded by the `except: continue` handler (line 135-137) and the scan
continues.  (The early `return` at line 108 and the `refresh_table` call
are GUI plumbing: they do not change which rows the engine selects.) -/
def applyFilters (hs : List String) (c : Criteria) (rows : List (List String)) :
    List (List String) :=
  rows.filter (fun r =>
    match rowPasses hs c r with
    | .ok b => b
    | .error _ => false)

/-! ## Thumbnail cache and fetcher (src/property_search.py lines 52-78) -/

/-- A decoded image handle: either a fetched-and-scaled remote photo or an
`Image.new` solid-colour placeholder. -/
inductive PyImage where
  | photo (mls : String) (n : Nat)
  | solid (color : String)
deriving DecidableEq

/-- The `photo_images` dict, keyed by listing identifier.  Assignment
prepends; lookup returns the most recent binding, matching dict update
semantics. -/
def dictLookup (m : List (String × PyImage)) (k : String) : Option PyImage :=
  match m with
  | [] => none
  | (k', v) :: rest => if k' = k then some v else dictLookup rest k

/-- Dict assignment `photo_images[mls] = thumb`. -/
def dictInsert (m : List (String × PyImage)) (k : String) (v : PyImage) :
    List (String × PyImage) :=
  (k, v) :: m

/-- `fetch_thumbnail` (lines 52-61): issue the photo-0 request; on success
decode and scale; on any network/decode/protocol error return the solid
gray placeholder.  `net mls n = true` means the request for photo `n` of
listing `mls` succeeds and decodes. -/
def fetchThumbnail (net : String → Nat → Bool) (mls : String) : PyImage :=
  if net mls 0 then .photo mls 0 else .solid "gray"

/-- The tree rows currently displayed: item id to the image shown on that
row (`refresh_table` inserts every row with a fresh `lightgray`
placeholder, line 219/226). -/
def treeLookup (m : List (Nat × PyImage)) (k : Nat) : Option PyImage :=
  match m with
  | [] => none
  | (k', v) :: rest => if k' = k then some v else treeLookup rest k

/-- `tree.item(item_id, image=thumb)` (line 74): overwrite the image of
the existing item; other rows are untouched. -/
def treeSetImage (m : List (Nat × PyImage)) (k : Nat) (v : PyImage) :
    List (Nat × PyImage) :=
  m.map (fun e => if e.1 = k then (k, v) else e)

/-- `fetch_thumbnail_async` (lines 63-78) with its worker run to
completion: on a cache hit return at once — no task is submitted, and in
particular the cached image is NOT applied to the requesting row, whose
displayed image stays as it was; on a miss the worker fetches once,
stores the result in the cache, and applies it to the requesting row if
that item still exists in the tree (lines 71-76).  Returns the cache, the
displayed rows, and the number of network requests issued by the call. -/
def fetchThumbnailAsync (net : String → Nat → Bool) (mls : String) (itemId : Nat)
    (cache : List (String × PyImage)) (disp : List (Nat × PyImage)) :
    List (String × PyImage) × List (Nat × PyImage) × Nat :=
  if (dictLookup cache mls).isSome then (cache, disp, 0)
  else
    let thumb := fetchThumbnail net mls
    (dictInsert cache mls thumb,
     if (treeLookup disp itemId).isSome then treeSetImage disp itemId thumb else disp,
     1)

/-! ## Loader and ZIP resolution (src/property_search.py lines 309-383) -/

/-- The two process-wide globals replaced by a load: `headers` and
`all_rows`. -/
structure AppState where
  headers : List String
  all_rows : List (List String)
deriving DecidableEq

/-- How a `load_file` call ends: the "no readable rows" dialog (line 333),
the "missing required columns" dialog (line 347), the generic "Load Error"
dialog from the outer `except` (line 380), or the success dialog
(line 375). -/
inductive LoadOutcome where
  | noRows
  | missingCols
  | loadError
  | success
deriving DecidableEq

/-- Line 331: keep the parsed rows in which some cell strips to a
non-empty string. -/
def discardBlanks (parsed : List (List String)) : List (List String) :=
  parsed.filter (fun row => row.any (fun cell => !(pyStrip cell.toList).isEmpty))

/-- One row of the ZIP→Town pass (lines 358-360): read `r[zip_idx]`
(`IndexError` when short); when the ZIP is in the lookup assign
`r[town_idx]` (again `IndexError` when short), else leave the row alone. -/
def zipRow (zl : String → Option String) (zi ti : Nat) (r : List String) :
    Except Unit (List String) := do
  let z ← pyGetE r zi
  match zl z with
  | some town => if ti < r.length then .ok (r.set ti town) else .error ()
  | none => .ok r

/-- The in-place `for r in all_rows` ZIP loop: rows are rewritten in order;
an exception stops the loop, leaving the offending and later rows
untouched (`true` in the second component records that an exception
escaped). -/
def zipLoop (zl : String → Option String) (zi ti : Nat) :
    List (List String) → List (List String) × Bool
  | [] => ([], false)
  | r :: rs =>
    match zipRow zl zi ti r with
    | .ok r' =>
      let p := zipLoop zl zi ti rs
      (r' :: p.1, p.2)
    | .error _ => (r :: rs, true)

/-- Column positions rendered by `refresh_table` (line 225): every header
index whose name is not `PHOTO`. -/
def visibleIdxs (hs : List String) : List Nat :=
  (List.range hs.length).filter (fun i => decide (hs.getD i "" ≠ "PHOTO"))

/-- The row accesses performed after a structurally valid load: the county
dropdown reads `r[county_idx]` for every row (line 364), the town dropdown
reads `r[town_idx]` for every row when `TOWN_NUM` exists (line 369), and
`refresh_table` reads `r[i]` for every visible column (line 225).  All
must be in range or the outer `except` fires. -/
def displayOk (hs : List String) (rows : List (List String)) (ti : Option Nat) : Bool :=
  (match idxOf hs "COUNTY" with
   | some ci => rows.all (fun r => decide (ci < r.length))
   | none => true) &&
  (match ti with
   | some t => rows.all (fun r => decide (t < r.length))
   | none => true) &&
  rows.all (fun r => (visibleIdxs hs).all (fun i => decide (i < r.length)))

/-- `load_file` (lines 309-383) from the point where the file has been
read and parsed into `parsed` rows.  NOTE the source order: `headers` and
`all_rows` are overwritten (lines 341-342) BEFORE the required-column
validation (lines 344-352), so the `missingCols` outcome leaves the NEW
data in place.  An exception in the ZIP pass or in dropdown/refresh
rendering is caught by the outer `except` (line 380) after the globals
were already replaced. -/
def loadFile (st : AppState) (zl : String → Option String)
    (parsed : List (List String)) : AppState × LoadOutcome :=
  match discardBlanks parsed with
  | r0 :: r1 :: rest =>
    let hs := r0.map pyStripS
    let body := r1 :: rest
    let st1 : AppState := ⟨hs, body⟩
    if !(hs.contains "LIST_NO" && hs.contains "ZIP" && hs.contains "COUNTY") then
      (st1, .missingCols)
    else
      match idxOf hs "ZIP" with
      | none => (st1, .loadError)
      | some zi =>
        match idxOf hs "TOWN_NUM" with
        | some ti =>
          let p := zipLoop zl zi ti body
          let st2 : AppState := ⟨hs, p.1⟩
          if p.2 then (st2, .loadError)
          else if displayOk hs p.1 (some ti) then (st2, .success) else (st2, .loadError)
        | none =>
          if displayOk hs body none then (st1, .success) else (st1, .loadError)
  | _ => (st, .noRows)

/-! ## Sort engine (src/property_search.py lines 187-202)

`sort_by_column` builds, for each displayed item, the pair
`(val_sort, item_id)` where `val_sort = float(val)` when the cell parses
and `str(val).lower()` otherwise, then calls `items.sort(reverse=reverse)`.
A display item is modelled as `(cell, id) : String × Nat`; tree item ids
are unique and increase in insertion order, so the comparison tuples are
pairwise distinct and CPython's stable sort produces exactly the unique
ascending (or, for `reverse=True`, descending) order of the strict
lexicographic comparison; the insertion sort below produces the same list.
Comparing a `float` key with a `str` key raises `TypeError`, modelled as
`Except.error`. -/

/-- A Python sort key: a parsed number or a lowercased string. -/
inductive PyKey where
  | ofNum (q : Rat)
  | ofStr (t : String)
deriving DecidableEq

/-- Lines 190-194: `float(val)` when it parses, else `str(val).lower()`. -/
def pyKeyOf (cell : String) : PyKey :=
  match pyFloat cell with
  | some q => .ofNum q
  | none => .ofStr cell.toLower

/-- Python `<` on the tuples `(val_sort, item_id)`: numbers compare
numerically, strings lexicographically, ties fall through to the item id;
a number/string mix raises `TypeError`. -/
def entLt (a b : String × Nat) : Except Unit Bool :=
  match pyKeyOf a.1, pyKeyOf b.1 with
  | .ofNum x, .ofNum y => .ok (decide (x < y ∨ (x = y ∧ a.2 < b.2)))
  | .ofStr x, .ofStr y => .ok (decide (x < y ∨ (x = y ∧ a.2 < b.2)))
  | _, _ => .error ()

/-- Insert into an already-sorted list, propagating comparison errors. -/
def insertM (x : String × Nat) : List (String × Nat) → Except Unit (List (String × Nat))
  | [] => .ok [x]
  | y :: ys => do
    if (← entLt x y) then pure (x :: y :: ys)
    else pure (y :: (← insertM x ys))

/-- Comparison sort in the `Except` monad; on pairwise-comparable input it
returns the unique ascending order of `entLt` (the same list
`items.sort()` produces), and it raises exactly when the input mixes
number and string keys, as any comparison sort must. -/
def sortM : List (String × Nat) → Except Unit (List (String × Nat))
  | [] => .ok []
  | x :: xs => do insertM x (← sortM xs)

/-- The per-column ascending/descending toggle dictionary `sort_state`;
`sort_state.get(col, False)` reads the current flag. -/
def SortState := String → Bool

/-- `sort_by_column` (lines 187-202): sort the displayed items by the
column's keys with the current `reverse` flag, then flip the flag for that
column only (line 202 runs after the sort, so a comparison `TypeError`
leaves both the display order and the toggle unchanged). -/
def sortByColumn (col : String) (st : SortState) (disp : List (String × Nat)) :
    Except Unit (List (String × Nat) × SortState) :=
  let reverse := st col
  match sortM disp with
  | .error e => .error e
  | .ok sorted =>
    .ok (if reverse then sorted.reverse else sorted,
         fun c => if c = col then !reverse else st c)

/-- The kind of a display item's sort key: `true` when the cell parses as
a number (so its key is a `float`), `false` when its key is a string. -/
def kindB (p : String × Nat) : Bool := (pyFloat p.1).isSome

/-- The strict order decided by a successful Python `<` on two comparison
tuples. -/
def EntLtP (a b : String × Nat) : Prop := entLt a b = .ok true

/-! ## Lemmas about the numeric parser -/

theorem ws_not_digit {c : Char} (h : isWS c = true) : c.isDigit = false := by
  simp only [isWS, Char.isWhitespace, Bool.or_eq_true, decide_eq_true_eq] at h
  rcases h with ((h | h) | h) | h <;> subst h <;> decide

theorem ws_ne_dot {c : Char} (h : isWS c = true) : c ≠ '.' := by
  simp only [isWS, Char.isWhitespace, Bool.or_eq_true, decide_eq_true_eq] at h
  rcases h with ((h | h) | h) | h <;> subst h <;> decide

theorem takeWhile_eq_nil_of_neg {α} {p : α → Bool} {l : List α}
    (h : ∀ c ∈ l, p c = false) : l.takeWhile p = [] := by
  cases l with
  | nil => rfl
  | cons c rest => simp [List.takeWhile_cons, h c (List.mem_cons_self c rest)]

theorem dropWhile_eq_self_of_neg {α} {p : α → Bool} {l : List α}
    (h : ∀ c ∈ l, p c = false) : l.dropWhile p = l := by
  cases l with
  | nil => rfl
  | cons c rest => simp [List.dropWhile_cons, h c (List.mem_cons_self c rest)]

theorem takeWhile_append_neg {α} {p : α → Bool} {w : List α}
    (hw : ∀ c ∈ w, p c = false) (x : List α) :
    (x ++ w).takeWhile p = x.takeWhile p := by
  induction x with
  | nil => simpa using takeWhile_eq_nil_of_neg hw
  | cons c x ih => cases hpc : p c <;> simp [List.takeWhile_cons, hpc, ih]

theorem dropWhile_append_neg {α} {p : α → Bool} {w : List α}
    (hw : ∀ c ∈ w, p c = false) (x : List α) :
    (x ++ w).dropWhile p = x.dropWhile p ++ w := by
  induction x with
  | nil => simpa using dropWhile_eq_self_of_neg hw
  | cons c x ih => cases hpc : p c <;> simp [List.dropWhile_cons, hpc, ih]

theorem takeWhile_append_all {α} {p : α → Bool} {d : List α}
    (hd : ∀ c ∈ d, p c = true) (x : List α) :
    (d ++ x).takeWhile p = d ++ x.takeWhile p :=
  List.takeWhile_append_of_pos hd

theorem dropWhile_append_all {α} {p : α → Bool} {d : List α}
    (hd : ∀ c ∈ d, p c = true) (x : List α) :
    (d ++ x).dropWhile p = x.dropWhile p :=
  List.dropWhile_append_of_pos hd

theorem searchNum_eq_none_of_no_digits {l : List Char}
    (h : ∀ c ∈ l, c.isDigit = false) : searchNum l = none := by
  induction l with
  | nil => rfl
  | cons c rest ih =>
    simp only [searchNum, h c (List.mem_cons_self c rest)]
    simpa using ih fun d hd => h d (List.mem_cons_of_mem _ hd)

theorem searchNum_append_left {a : List Char} (ha : ∀ c ∈ a, c.isDigit = false)
    (t : List Char) : searchNum (a ++ t) = searchNum t := by
  induction a with
  | nil => rfl
  | cons c a ih =>
    simp only [List.cons_append, searchNum, ha c (List.mem_cons_self c a)]
    simpa using ih fun d hd => ha d (List.mem_cons_of_mem _ hd)

theorem searchNum_cons_digit {c : Char} (h : c.isDigit = true) (t : List Char) :
    searchNum (c :: t) = some (grabTok (c :: t)) := by
  simp [searchNum, h]

theorem searchNum_cons_nondigit {c : Char} (h : c.isDigit = false) (t : List Char) :
    searchNum (c :: t) = searchNum t := by
  simp [searchNum, h]

theorem searchNum_dropWhile_ws (l : List Char) :
    searchNum (l.dropWhile isWS) = searchNum l := by
  induction l with
  | nil => rfl
  | cons c l ih =>
    cases hws : isWS c
    · simp [List.dropWhile_cons, hws]
    · simp only [List.dropWhile_cons, hws, if_true]
      rw [ih, searchNum_cons_nondigit (ws_not_digit hws)]

theorem fracPart_append_ws {w : List Char} (hw : ∀ c ∈ w, isWS c = true)
    (r : List Char) : fracPart (r ++ w) = fracPart r := by
  have hwd : ∀ c ∈ w, c.isDigit = false := fun c hc => ws_not_digit (hw c hc)
  cases r with
  | nil =>
    cases w with
    | nil => rfl
    | cons c w' =>
      simp [fracPart, ws_ne_dot (hw c (List.mem_cons_self c w'))]
  | cons c r2 =>
    by_cases hc : c = '.'
    · subst hc
      simp only [List.cons_append, fracPart, if_pos rfl]
      rw [takeWhile_append_neg hwd]
    · simp [fracPart, hc]

theorem grabTok_append_ws {w : List Char} (hw : ∀ c ∈ w, isWS c = true)
    (y : List Char) : grabTok (y ++ w) = grabTok y := by
  have hwd : ∀ c ∈ w, c.isDigit = false := fun c hc => ws_not_digit (hw c hc)
  unfold grabTok
  rw [takeWhile_append_neg hwd, dropWhile_append_neg hwd, fracPart_append_ws hw]

theorem searchNum_append_ws {w : List Char} (hw : ∀ c ∈ w, isWS c = true)
    (l : List Char) : searchNum (l ++ w) = searchNum l := by
  induction l with
  | nil =>
    simpa using searchNum_eq_none_of_no_digits fun c hc => ws_not_digit (hw c hc)
  | cons c l ih =>
    cases hdc : c.isDigit
    · rw [List.cons_append, searchNum_cons_nondigit hdc, searchNum_cons_nondigit hdc]
      exact ih
    · rw [List.cons_append, searchNum_cons_digit hdc, searchNum_cons_digit hdc,
        show c :: (l ++ w) = (c :: l) ++ w from rfl, grabTok_append_ws hw]

theorem searchNum_pyStrip (l : List Char) : searchNum (pyStrip l) = searchNum l := by
  unfold pyStrip
  rw [searchNum_dropWhile_ws]
  have hdecomp : l = (l.reverse.dropWhile isWS).reverse ++ (l.reverse.takeWhile isWS).reverse := by
    rw [← List.reverse_append, List.takeWhile_append_dropWhile, List.reverse_reverse]
  have hw : ∀ c ∈ (l.reverse.takeWhile isWS).reverse, isWS c = true := by
    intro c hc
    rw [List.mem_reverse] at hc
    exact List.mem_takeWhile_imp hc
  calc searchNum (l.reverse.dropWhile isWS).reverse
      = searchNum ((l.reverse.dropWhile isWS).reverse ++ (l.reverse.takeWhile isWS).reverse) :=
        (searchNum_append_ws hw _).symm
    _ = searchNum l := by rw [← hdecomp]

theorem num_eq_searchNum (s : String) :
    num (some s) = (searchNum s.toList).map tokVal := by
  show (let t := pyStrip s.toList
    if t.isEmpty then none
    else match searchNum t with
      | none => none
      | some tok => some (tokVal tok)) = (searchNum s.toList).map tokVal
  simp only
  by_cases ht : (pyStrip s.toList).isEmpty
  · rw [if_pos ht]
    have : pyStrip s.toList = [] := by
      cases h : pyStrip s.toList
      · rfl
      · rw [h] at ht; simp at ht
    have h2 := searchNum_pyStrip s.toList
    rw [this] at h2
    rw [← h2]
    rfl
  · rw [if_neg ht, ← searchNum_pyStrip s.toList]
    cases searchNum (pyStrip s.toList) <;> rfl

theorem searchNum_isSome_of_digit {l : List Char} (h : ∃ c ∈ l, c.isDigit = true) :
    (searchNum l).isSome = true := by
  induction l with
  | nil =>
    rcases h with ⟨c, hc, -⟩
    cases hc
  | cons c l ih =>
    cases hdc : c.isDigit
    · rw [searchNum_cons_nondigit hdc]
      apply ih
      rcases h with ⟨x, hx, hdx⟩
      rcases List.mem_cons.mp hx with rfl | hx'
      · rw [hdx] at hdc; cases hdc
      · exact ⟨x, hx', hdx⟩
    · rw [searchNum_cons_digit hdc]; rfl

theorem searchNum_int {a d rest : List Char}
    (ha : ∀ c ∈ a, c.isDigit = false) (hd : d ≠ []) (hda : ∀ c ∈ d, c.isDigit = true)
    (hrest : noIntExtend rest = true) :
    searchNum (a ++ d ++ rest) = some (d, none) := by
  rw [List.append_assoc, searchNum_append_left ha]
  have hhead : ∀ c2 ∈ rest.take 1, c2.isDigit = false := by
    intro c2 hc2
    cases rest with
    | nil => cases hc2
    | cons c3 r =>
      simp only [List.take, List.mem_singleton] at hc2
      subst hc2
      simp only [noIntExtend, Bool.and_eq_true, Bool.not_eq_true'] at hrest
      exact hrest.1
  have h1 : rest.takeWhile Char.isDigit = [] := by
    cases rest with
    | nil => rfl
    | cons c3 r => simp [List.takeWhile_cons, hhead c3 (by simp [List.take])]
  have h2 : rest.dropWhile Char.isDigit = rest := by
    cases rest with
    | nil => rfl
    | cons c3 r => simp [List.dropWhile_cons, hhead c3 (by simp [List.take])]
  have h3 : fracPart rest = none := by
    cases rest with
    | nil => rfl
    | cons c3 r =>
      simp only [fracPart]
      by_cases hdot : c3 = '.'
      · subst hdot
        rw [if_pos rfl]
        simp only [noIntExtend, Bool.and_eq_true, Bool.not_eq_true', if_true] at hrest
        have hr : r.takeWhile Char.isDigit = [] := by
          cases r with
          | nil => rfl
          | cons c4 r' =>
            simp only [List.headD_cons, Bool.not_eq_true'] at hrest
            simp [List.takeWhile_cons, hrest.2]
        simp [hr]
      · rw [if_neg hdot]
  cases d with
  | nil => exact absurd rfl hd
  | cons c d' =>
    rw [List.cons_append, searchNum_cons_digit (hda c (List.mem_cons_self c d')),
      ← List.cons_append]
    unfold grabTok
    rw [takeWhile_append_all hda, dropWhile_append_all hda, h1, List.append_nil, h2, h3]

theorem searchNum_frac {a d ds rest : List Char}
    (ha : ∀ c ∈ a, c.isDigit = false) (hd : d ≠ []) (hda : ∀ c ∈ d, c.isDigit = true)
    (hds : ds ≠ []) (hdsa : ∀ c ∈ ds, c.isDigit = true)
    (hrest : noFracExtend rest = true) :
    searchNum (a ++ (d ++ ('.' :: (ds ++ rest)))) = some (d, some ds) := by
  rw [searchNum_append_left ha]
  have hdotd : Char.isDigit '.' = false := by decide
  have hrtake : rest.takeWhile Char.isDigit = [] := by
    cases rest with
    | nil => rfl
    | cons c3 r =>
      simp only [noFracExtend, Bool.not_eq_true'] at hrest
      simp [List.takeWhile_cons, hrest]
  cases d with
  | nil => exact absurd rfl hd
  | cons c d' =>
    rw [List.cons_append, searchNum_cons_digit (hda c (List.mem_cons_self c d')),
      ← List.cons_append]
    unfold grabTok
    rw [takeWhile_append_all hda, dropWhile_append_all hda]
    rw [List.takeWhile_cons, hdotd]
    simp only [Bool.false_eq_true, if_false, List.append_nil]
    rw [List.dropWhile_cons, hdotd]
    simp only [Bool.false_eq_true, if_false, fracPart, if_pos rfl]
    rw [takeWhile_append_all hdsa, hrtake, List.append_nil]
    have : ds.isEmpty = false := by
      cases ds with
      | nil => exact absurd rfl hds
      | cons _ _ => rfl
    simp [this]

/-- C7: for every input, `num` returns the first contiguous digit run —
with an optional single decimal point introducing at least one further
digit — as a number (tolerating currency symbols and surrounding text,
e.g. `"3 br"` yields 3), and returns no value (`none`) exactly when the
input is absent, empty, or contains no digit. -/
theorem c7_num_contract :
    num none = none ∧
    num (some "") = none ∧
    (∀ s : String, (∀ c ∈ s.toList, c.isDigit = false) → num (some s) = none) ∧
    (∀ s : String, (∃ c ∈ s.toList, c.isDigit = true) → ∃ q, num (some s) = some q) ∧
    (∀ (s : String) (a d rest : List Char), s.toList = a ++ d ++ rest →
      (∀ c ∈ a, c.isDigit = false) → d ≠ [] → (∀ c ∈ d, c.isDigit = true) →
      noIntExtend rest = true → num (some s) = some ((digitsVal d : Rat))) ∧
    (∀ (s : String) (a d ds rest : List Char),
      s.toList = a ++ (d ++ ('.' :: (ds ++ rest))) →
      (∀ c ∈ a, c.isDigit = false) → d ≠ [] → (∀ c ∈ d, c.isDigit = true) →
      ds ≠ [] → (∀ c ∈ ds, c.isDigit = true) → noFracExtend rest = true →
      num (some s) =
        some ((digitsVal d : Rat) + (digitsVal ds : Rat) / ((10 : Rat) ^ ds.length))) ∧
    num (some "3 br") = some 3 := by
  refine ⟨rfl, by decide, ?_, ?_, ?_, ?_, by decide⟩
  · intro s h
    rw [num_eq_searchNum, searchNum_eq_none_of_no_digits h]
    rfl
  · intro s h
    rw [num_eq_searchNum]
    cases hs : searchNum s.toList with
    | none =>
      have := searchNum_isSome_of_digit h
      rw [hs] at this
      cases this
    | some tok => exact ⟨tokVal tok, rfl⟩
  · intro s a d rest hsplit ha hd hda hrest
    rw [num_eq_searchNum, hsplit, searchNum_int ha hd hda hrest]
    rfl
  · intro s a d ds rest hsplit ha hd hda hds hdsa hrest
    rw [num_eq_searchNum, hsplit, searchNum_frac ha hd hda hds hdsa hrest]
    rfl

/-- Closed instances of `c7_num_contract`, discharging its hypotheses on
concrete inputs. -/
theorem c7_num_contract_witness :
    num (some "N/A") = none ∧
    num (some "$450,000") = some ((digitsVal ['4', '5', '0'] : Rat)) ∧
    num (some "about 12.5x total") =
      some ((digitsVal ['1', '2'] : Rat) +
        (digitsVal ['5'] : Rat) / ((10 : Rat) ^ (['5'] : List Char).length)) ∧
    (∃ q, num (some "4 beds") = some q) := by
  obtain ⟨-, -, hnone, hsome, hint, hfrac, -⟩ := c7_num_contract
  refine ⟨hnone "N/A" (by decide), ?_, ?_, hsome "4 beds" (by decide)⟩
  · exact hint "$450,000" ['$'] ['4', '5', '0'] [',', '0', '0', '0']
      (by decide) (by decide) (by decide) (by decide) (by decide)
  · exact hfrac "about 12.5x total"
      ['a', 'b', 'o', 'u', 't', ' '] ['1', '2'] ['5'] ['x', ' ', 't', 'o', 't', 'a', 'l']
      (by decide) (by decide) (by decide) (by decide) (by decide) (by decide) (by decide)

/-! ## Lemmas about the sort engine -/

theorem entLt_num {x y : Rat} {a b : String × Nat}
    (hka : pyKeyOf a.1 = .ofNum x) (hkb : pyKeyOf b.1 = .ofNum y) :
    entLt a b = .ok (decide (x < y ∨ (x = y ∧ a.2 < b.2))) := by
  unfold entLt
  rw [hka, hkb]

theorem entLt_str {x y : String} {a b : String × Nat}
    (hka : pyKeyOf a.1 = .ofStr x) (hkb : pyKeyOf b.1 = .ofStr y) :
    entLt a b = .ok (decide (x < y ∨ (x = y ∧ a.2 < b.2))) := by
  unfold entLt
  rw [hka, hkb]

theorem entLt_mix_ns {x : Rat} {y : String} {a b : String × Nat}
    (hka : pyKeyOf a.1 = .ofNum x) (hkb : pyKeyOf b.1 = .ofStr y) :
    entLt a b = .error () := by
  unfold entLt
  rw [hka, hkb]

theorem entLt_mix_sn {x : String} {y : Rat} {a b : String × Nat}
    (hka : pyKeyOf a.1 = .ofStr x) (hkb : pyKeyOf b.1 = .ofNum y) :
    entLt a b = .error () := by
  unfold entLt
  rw [hka, hkb]

theorem lexlt_asymm {α} [LinearOrder α] {x y : α} {i j : Nat}
    (h : x < y ∨ (x = y ∧ i < j)) : ¬(y < x ∨ (y = x ∧ j < i)) := by
  rcases h with h | ⟨rfl, hij⟩
  · rintro (h2 | ⟨rfl, -⟩)
    · exact absurd h2 (lt_asymm h)
    · exact absurd h (lt_irrefl _)
  · rintro (h2 | ⟨-, hji⟩)
    · exact absurd h2 (lt_irrefl _)
    · omega

theorem lexlt_trans {α} [LinearOrder α] {x y z : α} {i j k : Nat}
    (h1 : x < y ∨ (x = y ∧ i < j)) (h2 : y < z ∨ (y = z ∧ j < k)) :
    x < z ∨ (x = z ∧ i < k) := by
  rcases h1 with h1 | ⟨rfl, hij⟩ <;> rcases h2 with h2 | ⟨rfl, hjk⟩
  · exact Or.inl (lt_trans h1 h2)
  · exact Or.inl h1
  · exact Or.inl h2
  · exact Or.inr ⟨rfl, lt_trans hij hjk⟩

theorem entLt_asym {a b : String × Nat} (h : EntLtP a b) : entLt b a = .ok false := by
  unfold EntLtP at h
  cases hka : pyKeyOf a.1 with
  | ofNum x =>
    cases hkb : pyKeyOf b.1 with
    | ofNum y =>
      rw [entLt_num hka hkb] at h
      have hp := of_decide_eq_true (Except.ok.inj h)
      rw [entLt_num hkb hka]
      exact congrArg Except.ok (decide_eq_false (lexlt_asymm hp))
    | ofStr y => rw [entLt_mix_ns hka hkb] at h; cases h
  | ofStr x =>
    cases hkb : pyKeyOf b.1 with
    | ofNum y => rw [entLt_mix_sn hka hkb] at h; cases h
    | ofStr y =>
      rw [entLt_str hka hkb] at h
      have hp := of_decide_eq_true (Except.ok.inj h)
      rw [entLt_str hkb hka]
      exact congrArg Except.ok (decide_eq_false (lexlt_asymm hp))

theorem entLt_transP {a b c : String × Nat} (h1 : EntLtP a b) (h2 : EntLtP b c) :
    EntLtP a c := by
  unfold EntLtP at *
  cases hka : pyKeyOf a.1 with
  | ofNum x =>
    cases hkb : pyKeyOf b.1 with
    | ofNum y =>
      cases hkc : pyKeyOf c.1 with
      | ofNum z =>
        rw [entLt_num hka hkb] at h1
        rw [entLt_num hkb hkc] at h2
        rw [entLt_num hka hkc]
        exact congrArg Except.ok (decide_eq_true
          (lexlt_trans (of_decide_eq_true (Except.ok.inj h1))
            (of_decide_eq_true (Except.ok.inj h2))))
      | ofStr z => rw [entLt_mix_ns hkb hkc] at h2; cases h2
    | ofStr y => rw [entLt_mix_ns hka hkb] at h1; cases h1
  | ofStr x =>
    cases hkb : pyKeyOf b.1 with
    | ofNum y => rw [entLt_mix_sn hka hkb] at h1; cases h1
    | ofStr y =>
      cases hkc : pyKeyOf c.1 with
      | ofNum z => rw [entLt_mix_sn hkb hkc] at h2; cases h2
      | ofStr z =>
        rw [entLt_str hka hkb] at h1
        rw [entLt_str hkb hkc] at h2
        rw [entLt_str hka hkc]
        exact congrArg Except.ok (decide_eq_true
          (lexlt_trans (of_decide_eq_true (Except.ok.inj h1))
            (of_decide_eq_true (Except.ok.inj h2))))

theorem insertM_perm {x : String × Nat} :
    ∀ {l out}, insertM x l = .ok out → out.Perm (x :: l) := by
  intro l
  induction l with
  | nil =>
    intro out h
    simp only [insertM] at h
    cases h
    exact List.Perm.refl _
  | cons y ys ih =>
    intro out h
    unfold insertM at h
    cases hlt : entLt x y with
    | error e => rw [hlt] at h; simp [Bind.bind, Except.bind] at h
    | ok b =>
      rw [hlt] at h
      cases b with
      | true =>
        simp [Bind.bind, Except.bind, pure, Except.pure] at h
        subst h
        exact List.Perm.refl _
      | false =>
        cases hrec : insertM x ys with
        | error e => rw [hrec] at h; simp [Bind.bind, Except.bind] at h
        | ok o =>
          rw [hrec] at h
          simp [Bind.bind, Except.bind, pure, Except.pure] at h
          subst h
          exact ((ih hrec).cons y).trans (List.Perm.swap x y ys)

theorem sortM_perm : ∀ {l out : List (String × Nat)}, sortM l = .ok out → out.Perm l := by
  intro l
  induction l with
  | nil =>
    intro out h
    simp only [sortM] at h
    cases h
    exact List.Perm.refl _
  | cons x xs ih =>
    intro out h
    unfold sortM at h
    cases hs : sortM xs with
    | error e => rw [hs] at h; simp [Bind.bind, Except.bind] at h
    | ok s =>
      rw [hs] at h
      simp only [Bind.bind, Except.bind] at h
      exact (insertM_perm h).trans ((ih hs).cons x)

theorem entLt_ok_of_kind {a b : String × Nat} (h : kindB a = kindB b) :
    ∃ bl, entLt a b = .ok bl := by
  unfold kindB at h
  cases hka : pyFloat a.1 with
  | none =>
    cases hkb : pyFloat b.1 with
    | none =>
      exact ⟨_, entLt_str (x := a.1.toLower) (y := b.1.toLower)
        (by simp [pyKeyOf, hka]) (by simp [pyKeyOf, hkb])⟩
    | some q => rw [hka, hkb] at h; simp at h
  | some q =>
    cases hkb : pyFloat b.1 with
    | none => rw [hka, hkb] at h; simp at h
    | some q2 =>
      exact ⟨_, entLt_num (x := q) (y := q2)
        (by simp [pyKeyOf, hka]) (by simp [pyKeyOf, hkb])⟩

theorem insertM_ok_of_kind {x : String × Nat} :
    ∀ {l}, (∀ y ∈ l, kindB y = kindB x) → ∃ out, insertM x l = .ok out := by
  intro l
  induction l with
  | nil => exact fun _ => ⟨[x], rfl⟩
  | cons y ys ih =>
    intro hall
    obtain ⟨bl, hbl⟩ := entLt_ok_of_kind (hall y (List.mem_cons_self _ _)).symm
    cases bl with
    | true =>
      exact ⟨x :: y :: ys, by simp [insertM, Bind.bind, Except.bind, hbl, pure, Except.pure]⟩
    | false =>
      obtain ⟨o, ho⟩ := ih (fun z hz => hall z (List.mem_cons_of_mem _ hz))
      exact ⟨y :: o, by simp [insertM, Bind.bind, Except.bind, hbl, ho, pure, Except.pure]⟩

theorem sortM_ok_of_kind : ∀ {l : List (String × Nat)},
    (∀ a ∈ l, ∀ b ∈ l, kindB a = kindB b) → ∃ out, sortM l = .ok out := by
  intro l
  induction l with
  | nil => exact fun _ => ⟨[], rfl⟩
  | cons x xs ih =>
    intro hall
    obtain ⟨s, hs⟩ :=
      ih fun a ha b hb =>
        hall a (List.mem_cons_of_mem _ ha) b (List.mem_cons_of_mem _ hb)
    have hsx : ∀ y ∈ s, kindB y = kindB x := by
      intro y hy
      have hyxs : y ∈ xs := (sortM_perm hs).mem_iff.mp hy
      exact hall y (List.mem_cons_of_mem _ hyxs) x (List.mem_cons_self _ _)
    obtain ⟨out, hout⟩ := insertM_ok_of_kind hsx
    exact ⟨out, by simp [sortM, Bind.bind, Except.bind, hs, hout]⟩

theorem insertM_sorted {x : String × Nat} :
    ∀ {l out}, l.Pairwise (fun a b => ¬ EntLtP b a) → insertM x l = .ok out →
      out.Pairwise (fun a b => ¬ EntLtP b a) := by
  intro l
  induction l with
  | nil =>
    intro out _ h
    simp only [insertM] at h
    cases h
    simp
  | cons y ys ih =>
    intro out hsorted h
    unfold insertM at h
    cases hlt : entLt x y with
    | error e => rw [hlt] at h; simp [Bind.bind, Except.bind] at h
    | ok b =>
      rw [hlt] at h
      cases b with
      | true =>
        simp [Bind.bind, Except.bind, pure, Except.pure] at h
        subst h
        have hxy : EntLtP x y := hlt
        refine List.Pairwise.cons ?_ hsorted
        intro z hz
        rcases List.mem_cons.mp hz with rfl | hz'
        · intro hyx
          have hfalse := entLt_asym hyx
          rw [hlt] at hfalse
          cases hfalse
        · intro hzx
          exact (List.pairwise_cons.mp hsorted).1 z hz' (entLt_transP hzx hxy)
      | false =>
        cases hrec : insertM x ys with
        | error e => rw [hrec] at h; simp [Bind.bind, Except.bind] at h
        | ok o =>
          rw [hrec] at h
          simp [Bind.bind, Except.bind, pure, Except.pure] at h
          subst h
          refine List.Pairwise.cons ?_ (ih (List.pairwise_cons.mp hsorted).2 hrec)
          intro w hw
          rcases List.mem_cons.mp ((insertM_perm hrec).mem_iff.mp hw) with rfl | hw2
          · intro hxy
            unfold EntLtP at hxy
            rw [hlt] at hxy
            cases hxy
          · exact (List.pairwise_cons.mp hsorted).1 w hw2

theorem sortM_sorted : ∀ {l out : List (String × Nat)}, sortM l = .ok out →
    out.Pairwise (fun a b => ¬ EntLtP b a) := by
  intro l
  induction l with
  | nil =>
    intro out h
    simp only [sortM] at h
    cases h
    simp
  | cons x xs ih =>
    intro out h
    unfold sortM at h
    cases hs : sortM xs with
    | error e => rw [hs] at h; simp [Bind.bind, Except.bind] at h
    | ok s =>
      rw [hs] at h
      simp only [Bind.bind, Except.bind] at h
      exact insertM_sorted (ih hs) h

theorem sortByColumn_ok {col : String} {st : SortState} {disp out : List (String × Nat)}
    {st₁ : SortState} (h : sortByColumn col st disp = .ok (out, st₁)) :
    ∃ s, sortM disp = .ok s ∧ out = (if st col then s.reverse else s) ∧
      st₁ = fun c => if c = col then !(st col) else st c := by
  unfold sortByColumn at h
  cases hs : sortM disp with
  | error e => rw [hs] at h; cases h
  | ok s =>
    rw [hs] at h
    have h' := Except.ok.inj h
    exact ⟨s, rfl, (congrArg Prod.fst h').symm, (congrArg Prod.snd h').symm⟩

/-! ## Lemmas about the loader and the ZIP pass -/

theorem pyGetE_ok {r : List String} {i : Nat} (h : i < r.length) :
    pyGetE r i = .ok r[i] := by
  unfold pyGetE
  rw [dif_pos h]

theorem zipRow_length {zl : String → Option String} {zi ti : Nat} {r r' : List String}
    (h : zipRow zl zi ti r = .ok r') : r'.length = r.length := by
  unfold zipRow at h
  cases hg : pyGetE r zi with
  | error e => rw [hg] at h; simp [Bind.bind, Except.bind] at h
  | ok z =>
    rw [hg] at h
    simp only [Bind.bind, Except.bind] at h
    cases hz : zl z with
    | some t =>
      simp only [hz] at h
      by_cases hti : ti < r.length
      · rw [if_pos hti] at h
        cases h
        exact List.length_set r ti t
      · rw [if_neg hti] at h
        cases h
    | none =>
      simp only [hz] at h
      cases h
      rfl

theorem zipLoop_length_all {zl : String → Option String} {zi ti : Nat} {L : Nat} :
    ∀ rows : List (List String), (∀ r ∈ rows, r.length = L) →
      ∀ r' ∈ (zipLoop zl zi ti rows).1, r'.length = L := by
  intro rows
  induction rows with
  | nil =>
    intro _ r' hr'
    simp [zipLoop] at hr'
  | cons r rs ih =>
    intro hall r' hr'
    unfold zipLoop at hr'
    cases hz : zipRow zl zi ti r with
    | ok rr =>
      rw [hz] at hr'
      rcases List.mem_cons.mp hr' with rfl | hmem
      · rw [zipRow_length hz]
        exact hall r (List.mem_cons_self _ _)
      · exact ih (fun x hx => hall x (List.mem_cons_of_mem _ hx)) r' hmem
    | error e =>
      rw [hz] at hr'
      exact hall r' hr'

/-! ## Claim theorems -/

/-- C1 (divergence evidence): `load_file` overwrites `headers` and
`all_rows` (lines 341-342) before validating the required columns
(lines 344-352), so a file missing `COUNTY` reports "missing required
columns", yet the previously loaded Listing Table and Schema do NOT remain
unchanged: here a prior three-column table is replaced by the rejected
file's data. -/
theorem c1_missing_columns_mutates_state :
    loadFile ⟨["LIST_NO", "ZIP", "COUNTY"], [["1", "02145", "ESSEX"]]⟩ (fun _ => none)
      [["LIST_NO", "ZIP"], ["2", "01960"]]
      = (⟨["LIST_NO", "ZIP"], [["2", "01960"]]⟩, .missingCols) ∧
    (⟨["LIST_NO", "ZIP"], [["2", "01960"]]⟩ : AppState)
      ≠ ⟨["LIST_NO", "ZIP", "COUNTY"], [["1", "02145", "ESSEX"]]⟩ := by
  decide

/-- C2 (counterexample): a user input for min-beds that is nonempty but
parses to no value (`"abc"`) is NOT skipped: the comparison `0 < None`
raises `TypeError`, the per-row handler excludes the row, and the sole
(matching) row disappears from the result. -/
theorem c2_counterexample :
    num (some "abc") = none ∧
    applyFilters ["LIST_NO", "ZIP", "COUNTY", "NO_BEDROOMS"]
      ⟨"", "", "abc", "", "", "", "", ""⟩ [["1", "02145", "X", "3"]] = [] := by
  decide

/-- C2 (amended): a numeric filter predicate is skipped (excluding no row)
exactly when the user's input is the empty string; a nonempty input that
parses to no value makes every row's evaluation raise, so every row is
excluded; a row value that parses to no value is treated as 0 in the
lower-bound comparison, so such a row is excluded precisely when the
user's bound is greater than 0. -/
theorem c2_amended :
    (∀ (field input : String) (hs r : List String), input = "" →
        lowerBoundCheck field input hs r = .ok false) ∧
    (∀ (hs : List String) (c : Criteria) (r : List String), c.priceMax = "" →
        priceMaxCheck hs c r = .ok false) ∧
    (∀ (hs : List String) (rows : List (List String)),
        applyFilters hs ⟨"", "", "", "", "", "", "", ""⟩ rows = rows) ∧
    (∀ (hs : List String) (c : Criteria) (rows : List (List String)) (i : Nat),
        c.county = "" → c.town = "" → c.bed ≠ "" → num (some c.bed) = none →
        idxOf hs "NO_BEDROOMS" = some i → (∀ r ∈ rows, i < r.length) →
        applyFilters hs c rows = []) ∧
    (∀ (field input : String) (hs r : List String) (i : Nat) (cell : String) (q : Rat),
        input ≠ "" → num (some input) = some q → idxOf hs field = some i →
        pyGetE r i = .ok cell → num (some cell) = none →
        lowerBoundCheck field input hs r = .ok (decide ((0 : Rat) < q))) := by
  refine ⟨?_, ?_, ?_, ?_, ?_⟩
  · intro field input hs r h
    subst h
    simp [lowerBoundCheck]
  · intro hs c r h
    simp [priceMaxCheck, h]
  · intro hs rows
    have hrp : ∀ r, rowPasses hs ⟨"", "", "", "", "", "", "", ""⟩ r = .ok true := by
      intro r
      simp [rowPasses, countyCheck, townCheck, lowerBoundCheck, priceMaxCheck,
        remarksCheck, Bind.bind, Except.bind, pure, Except.pure]
    unfold applyFilters
    refine List.filter_eq_self.mpr fun r hr => ?_
    simp [hrp r]
  · intro hs c rows i hcounty htown hbed hnum hidx hlen
    unfold applyFilters
    refine List.filter_eq_nil_iff.mpr fun r hr => ?_
    have h1 : countyCheck hs c r = .ok false := by simp [countyCheck, hcounty]
    have h2 : townCheck hs c r = .ok false := by simp [townCheck, htown]
    have h3 : lowerBoundCheck "NO_BEDROOMS" c.bed hs r = .error () := by
      unfold lowerBoundCheck
      rw [if_neg hbed, hidx]
      simp [pyGetOptE, pyGetE_ok (hlen r hr), Bind.bind, Except.bind, pyLtE, hnum]
    have hrp : rowPasses hs c r = .error () := by
      simp [rowPasses, h1, h2, h3, Bind.bind, Except.bind, pure, Except.pure]
    simp [hrp]
  · intro field input hs r i cell q hin hnum hidx hget hcell
    unfold lowerBoundCheck
    rw [if_neg hin, hidx]
    simp [pyGetOptE, hget, Bind.bind, Except.bind, hcell, hnum, pyLtE]

/-- Closed instances of `c2_amended` on concrete inputs. -/
theorem c2_amended_witness :
    lowerBoundCheck "NO_BEDROOMS" "" ["NO_BEDROOMS"] ["3"] = .ok false ∧
    applyFilters ["A"] ⟨"", "", "", "", "", "", "", ""⟩ [["x"], ["y"]] = [["x"], ["y"]] ∧
    applyFilters ["NO_BEDROOMS"] ⟨"", "", "oops", "", "", "", "", ""⟩ [["3"]] = [] ∧
    lowerBoundCheck "NO_BEDROOMS" "2" ["NO_BEDROOMS"] ["N/A"] = .ok true := by
  obtain ⟨h1, -, h3, h4, h5⟩ := c2_amended
  refine ⟨h1 _ _ _ _ rfl, h3 _ _, ?_, ?_⟩
  · exact h4 ["NO_BEDROOMS"] ⟨"", "", "oops", "", "", "", "", ""⟩ [["3"]] 0
      rfl rfl (by decide) (by decide) (by decide) (by decide)
  · have h := h5 "NO_BEDROOMS" "2" ["NO_BEDROOMS"] ["N/A"] 0 "N/A" 2
      (by decide) (by decide) (by decide) rfl (by decide)
    simpa using h

theorem treeLookup_setImage {disp : List (Nat × PyImage)} {k : Nat}
    (h : (treeLookup disp k).isSome = true) (v : PyImage) :
    treeLookup (treeSetImage disp k v) k = some v := by
  induction disp with
  | nil => simp [treeLookup] at h
  | cons e rest ih =>
    obtain ⟨k', v'⟩ := e
    by_cases he : k' = k
    · subst he
      have hset : treeSetImage ((k', v') :: rest) k' v = (k', v) :: treeSetImage rest k' v := by
        simp [treeSetImage]
      rw [hset]
      simp [treeLookup]
    · have hset : treeSetImage ((k', v') :: rest) k v = (k', v') :: treeSetImage rest k v := by
        simp [treeSetImage, he]
      rw [hset]
      simp only [treeLookup, if_neg he]
      apply ih
      simp only [treeLookup, if_neg he] at h
      exact h

/-- C3 (counterexample): after a failed fetch has cached the solid gray
placeholder for an identifier, a refreshed row for that listing is
displayed with the fresh `lightgray` placeholder (line 219); the
subsequent thumbnail request is a cache hit and issues no new network
fetch — but its whole effect is to return the state unchanged: the hit
path (lines 64-65) returns without applying the cached image, so the row
keeps the `lightgray` placeholder rather than the cached gray image.  The
cached image is not "used". -/
theorem c3_counterexample :
    dictLookup (fetchThumbnailAsync (fun _ _ => false) "73352128" 0 []
        [(0, .solid "lightgray")]).1 "73352128" = some (.solid "gray") ∧
    fetchThumbnailAsync (fun _ _ => false) "73352128" 5
        (fetchThumbnailAsync (fun _ _ => false) "73352128" 0 []
          [(0, .solid "lightgray")]).1
        [(5, .solid "lightgray")]
      = ((fetchThumbnailAsync (fun _ _ => false) "73352128" 0 []
          [(0, .solid "lightgray")]).1, [(5, .solid "lightgray")], 0) ∧
    PyImage.solid "lightgray" ≠ PyImage.solid "gray" := by
  decide

/-- C3 (amended): for every listing identifier, if a thumbnail fetch
fails, the fixed solid-gray placeholder is stored in the Thumbnail Cache
under that identifier (one request issued) and applied to the requesting
row when that row still exists; when a cache entry exists for an
identifier, a subsequent thumbnail request returns immediately without
issuing a new network fetch and leaves the cache unchanged — but it does
not apply the cached image to the requesting row: the displayed image
stays exactly as it was. -/
theorem c3_amended :
    (∀ (net : String → Nat → Bool) (mls : String) (itemId : Nat)
        (cache : List (String × PyImage)) (disp : List (Nat × PyImage)),
        dictLookup cache mls = none → net mls 0 = false →
        dictLookup (fetchThumbnailAsync net mls itemId cache disp).1 mls
          = some (.solid "gray") ∧
        (fetchThumbnailAsync net mls itemId cache disp).2.2 = 1 ∧
        ((treeLookup disp itemId).isSome = true →
          treeLookup (fetchThumbnailAsync net mls itemId cache disp).2.1 itemId
            = some (.solid "gray"))) ∧
    (∀ (net : String → Nat → Bool) (mls : String) (itemId : Nat)
        (cache : List (String × PyImage)) (disp : List (Nat × PyImage)) (img : PyImage),
        dictLookup cache mls = some img →
        fetchThumbnailAsync net mls itemId cache disp = (cache, disp, 0)) := by
  constructor
  · intro net mls itemId cache disp hmiss hfail
    refine ⟨?_, ?_, ?_⟩
    · simp [fetchThumbnailAsync, hmiss, fetchThumbnail, hfail, dictInsert, dictLookup]
    · simp [fetchThumbnailAsync, hmiss]
    · intro hitem
      simp only [fetchThumbnailAsync, hmiss, Option.isSome_none, Bool.false_eq_true,
        if_false, fetchThumbnail, hfail, hitem, if_true]
      exact treeLookup_setImage hitem _
  · intro net mls itemId cache disp img hhit
    simp [fetchThumbnailAsync, hhit]

/-- Closed instances of `c3_amended`: a failing fetch caches the gray
placeholder and applies it to the live requesting row; a later request
against a cache that holds the identifier changes nothing and issues no
request. -/
theorem c3_amended_witness :
    dictLookup (fetchThumbnailAsync (fun _ _ => false) "73352128" 0 []
        [(0, .solid "lightgray")]).1 "73352128" = some (.solid "gray") ∧
    treeLookup (fetchThumbnailAsync (fun _ _ => false) "73352128" 0 []
        [(0, .solid "lightgray")]).2.1 0 = some (.solid "gray") ∧
    fetchThumbnailAsync (fun _ _ => false) "73352128" 5
        [("73352128", .solid "gray")] [(5, .solid "lightgray")]
      = ([("73352128", .solid "gray")], [(5, .solid "lightgray")], 0) := by
  obtain ⟨hmiss, hhit⟩ := c3_amended
  obtain ⟨h1, -, h3⟩ :=
    hmiss (fun _ _ => false) "73352128" 0 [] [(0, .solid "lightgray")] rfl rfl
  exact ⟨h1, h3 rfl, hhit (fun _ _ => false) "73352128" 5 [("73352128", .solid "gray")]
    [(5, .solid "lightgray")] (PyImage.solid "gray") rfl⟩

/-- C4 (counterexample): a file whose data row has one more cell than the
Schema loads successfully (success dialog shown), leaving a Listing Row
with 4 cells against a 3-column Schema — the invariant fails after this
successful load. -/
theorem c4_counterexample :
    loadFile ⟨[], []⟩ (fun _ => none)
      [["LIST_NO", "ZIP", "COUNTY"], ["1", "02145", "ESSEX", "extra"]]
      = (⟨["LIST_NO", "ZIP", "COUNTY"], [["1", "02145", "ESSEX", "extra"]]⟩, .success) ∧
    ¬ (∀ r ∈ (loadFile ⟨[], []⟩ (fun _ => none)
        [["LIST_NO", "ZIP", "COUNTY"], ["1", "02145", "ESSEX", "extra"]]).1.all_rows,
        r.length = (loadFile ⟨[], []⟩ (fun _ => none)
        [["LIST_NO", "ZIP", "COUNTY"], ["1", "02145", "ESSEX", "extra"]]).1.headers.length) := by
  decide

/-- C4 (amended): for input files whose non-blank rows all have exactly
the header row's cell count, every successful load leaves every Listing
Row with exactly `len(Schema)` cells; filtering selects a subset of rows,
the ZIP pass rewrites rows preserving their cell counts, and sorting
permutes the displayed items — so the invariant is preserved. -/
theorem c4_amended :
    (∀ (st : AppState) (zl : String → Option String) (parsed : List (List String))
        (st₁ : AppState),
        (∀ r ∈ discardBlanks parsed, r.length = ((discardBlanks parsed).headD []).length) →
        loadFile st zl parsed = (st₁, .success) →
        ∀ r ∈ st₁.all_rows, r.length = st₁.headers.length) ∧
    (∀ (hs : List String) (c : Criteria) (rows : List (List String)) (r : List String),
        r ∈ applyFilters hs c rows → r ∈ rows) ∧
    (∀ (zl : String → Option String) (zi ti L : Nat) (rows : List (List String)),
        (∀ r ∈ rows, r.length = L) →
        ∀ r' ∈ (zipLoop zl zi ti rows).1, r'.length = L) ∧
    (∀ (col : String) (st : SortState) (disp out : List (String × Nat)) (st₁ : SortState),
        sortByColumn col st disp = .ok (out, st₁) → out.Perm disp) := by
  refine ⟨?_, ?_, ?_, ?_⟩
  · intro st zl parsed st₁ hlen hload
    rcases hd : discardBlanks parsed with - | ⟨r0, rest0⟩
    · unfold loadFile at hload
      rw [hd] at hload
      simp at hload
    rcases rest0 with - | ⟨r1, rest⟩
    · unfold loadFile at hload
      rw [hd] at hload
      simp at hload
    rw [hd] at hlen
    simp only [List.headD_cons] at hlen
    have hbody : ∀ r ∈ r1 :: rest, r.length = r0.length :=
      fun r hr => hlen r (List.mem_cons_of_mem _ hr)
    have hmap : (r0.map pyStripS).length = r0.length := List.length_map r0 pyStripS
    simp only [loadFile, hd] at hload
    split at hload
    · simp at hload
    split at hload
    · simp at hload
    split at hload
    case _ zi hzi ti hti =>
      split at hload
      · simp at hload
      split at hload
      · have h1 := congrArg Prod.fst hload
        simp only at h1
        subst h1
        intro r hr
        rw [hmap]
        exact zipLoop_length_all (r1 :: rest) hbody r hr
      · simp at hload
    case _ zi hzi hti =>
      split at hload
      · have h1 := congrArg Prod.fst hload
        simp only at h1
        subst h1
        intro r hr
        rw [hmap]
        exact hlen r (List.mem_cons_of_mem _ hr)
      · simp at hload
  · intro hs c rows r hr
    exact List.mem_of_mem_filter hr
  · intro zl zi ti L rows h
    exact zipLoop_length_all rows h
  · intro col st disp out st₁ h
    obtain ⟨s, hs, hout, -⟩ := sortByColumn_ok h
    subst hout
    by_cases hrev : st col
    · rw [if_pos hrev]
      exact (List.reverse_perm s).trans (sortM_perm hs)
    · rw [if_neg hrev]
      exact sortM_perm hs

/-- Closed instance of `c4_amended`: a well-formed load leaves every row
with exactly `len(Schema)` cells. -/
theorem c4_amended_witness :
    ∀ r ∈ (⟨["LIST_NO", "ZIP", "COUNTY"], [["1", "02145", "ESSEX"]]⟩ : AppState).all_rows,
      r.length = (⟨["LIST_NO", "ZIP", "COUNTY"],
        [["1", "02145", "ESSEX"]]⟩ : AppState).headers.length := by
  obtain ⟨h1, -, -, -⟩ := c4_amended
  exact h1 ⟨[], []⟩ (fun _ => none) [["LIST_NO", "ZIP", "COUNTY"], ["1", "02145", "ESSEX"]]
    ⟨["LIST_NO", "ZIP", "COUNTY"], [["1", "02145", "ESSEX"]]⟩ (by decide) (by decide)

/-- C5: for every Listing Table and criteria snapshot, the Filter Engine's
output is a sublist of the input rows (subset in the original relative
order), and filtering the filtered result again with the same criteria
returns it unchanged. -/
theorem c5_filter_subset_idempotent (hs : List String) (c : Criteria)
    (rows : List (List String)) :
    (applyFilters hs c rows).Sublist rows ∧
    applyFilters hs c (applyFilters hs c rows) = applyFilters hs c rows := by
  constructor
  · exact List.filter_sublist rows
  · simp only [applyFilters, List.filter_filter]
    congr 1
    funext r
    exact Bool.and_self _

/-- C8: in the ZIP-resolution pass, a row whose ZIP cell is in the lookup
gets its `TOWN_NUM` cell overwritten with the town name; a ZIP absent from
the lookup leaves the row unchanged; no cell other than `TOWN_NUM` is ever
modified; and over the whole table the pass rewrites each row
independently, raising no error when every row is long enough. -/
theorem c8_zip_resolution :
    (∀ (zl : String → Option String) (zi ti : Nat) (r : List String) (t : String)
        (hzi : zi < r.length), ti < r.length → zl r[zi] = some t →
        zipRow zl zi ti r = .ok (r.set ti t)) ∧
    (∀ (zl : String → Option String) (zi ti : Nat) (r : List String)
        (hzi : zi < r.length), zl r[zi] = none →
        zipRow zl zi ti r = .ok r) ∧
    (∀ (zl : String → Option String) (zi ti : Nat) (r r' : List String),
        zipRow zl zi ti r = .ok r' → ∀ j, j ≠ ti → r'[j]? = r[j]?) ∧
    (∀ (zl : String → Option String) (zi ti : Nat) (rows : List (List String)),
        (∀ r ∈ rows, zi < r.length ∧ ti < r.length) →
        (zipLoop zl zi ti rows).2 = false ∧
        (zipLoop zl zi ti rows).1 = rows.map (fun r =>
          match zl (r.getD zi "") with
          | some t => r.set ti t
          | none => r)) := by
  have hrow : ∀ (zl : String → Option String) (zi ti : Nat) (r : List String),
      zi < r.length → ti < r.length →
      zipRow zl zi ti r = .ok (match zl (r.getD zi "") with
        | some t => r.set ti t
        | none => r) := by
    intro zl zi ti r hzi hti
    unfold zipRow
    rw [pyGetE_ok hzi, List.getD_eq_getElem r "" hzi]
    cases hz : zl r[zi] with
    | some t => simp [Bind.bind, Except.bind, hz, if_pos hti]
    | none => simp [Bind.bind, Except.bind, hz]
  refine ⟨?_, ?_, ?_, ?_⟩
  · intro zl zi ti r t hzi hti hz
    have h := hrow zl zi ti r hzi hti
    rw [List.getD_eq_getElem r "" hzi] at h
    simp only [hz] at h
    exact h
  · intro zl zi ti r hzi hz
    unfold zipRow
    rw [pyGetE_ok hzi]
    simp [Bind.bind, Except.bind, hz]
  · intro zl zi ti r r' h j hj
    unfold zipRow at h
    cases hg : pyGetE r zi with
    | error e => rw [hg] at h; simp [Bind.bind, Except.bind] at h
    | ok z =>
      rw [hg] at h
      simp only [Bind.bind, Except.bind] at h
      cases hz : zl z with
      | some t =>
        simp only [hz] at h
        by_cases hti : ti < r.length
        · rw [if_pos hti] at h
          cases h
          exact List.getElem?_set_ne (Ne.symm hj)
        · rw [if_neg hti] at h
          cases h
      | none =>
        simp only [hz] at h
        cases h
        rfl
  · intro zl zi ti rows hall
    induction rows with
    | nil => exact ⟨rfl, rfl⟩
    | cons r rs ih =>
      obtain ⟨hzi, hti⟩ := hall r (List.mem_cons_self _ _)
      have h := hrow zl zi ti r hzi hti
      obtain ⟨ih1, ih2⟩ := ih fun x hx => hall x (List.mem_cons_of_mem _ hx)
      constructor
      · unfold zipLoop
        rw [h]
        exact ih1
      · unfold zipLoop
        rw [h]
        simp only [List.map_cons]
        rw [ih2]

/-- Closed instances of `c8_zip_resolution` on a concrete lookup and
table. -/
theorem c8_zip_resolution_witness :
    zipRow (fun z => if z = "02145" then some "SOMERVILLE" else none) 1 2
      ["1", "02145", "999"] = .ok ["1", "02145", "SOMERVILLE"] ∧
    zipRow (fun z => if z = "02145" then some "SOMERVILLE" else none) 1 2
      ["1", "01960", "999"] = .ok ["1", "01960", "999"] ∧
    (zipLoop (fun z => if z = "02145" then some "SOMERVILLE" else none) 1 2
      [["1", "02145", "999"], ["2", "01960", "999"]]).2 = false := by
  obtain ⟨h1, h2, -, h4⟩ := c8_zip_resolution
  refine ⟨?_, ?_, ?_⟩
  · exact h1 (fun z => if z = "02145" then some "SOMERVILLE" else none) 1 2
      ["1", "02145", "999"] "SOMERVILLE" (by decide) (by decide) (by decide)
  · exact h2 (fun z => if z = "02145" then some "SOMERVILLE" else none) 1 2
      ["1", "01960", "999"] (by decide) (by decide)
  · exact (h4 (fun z => if z = "02145" then some "SOMERVILLE" else none) 1 2
      [["1", "02145", "999"], ["2", "01960", "999"]] (by decide)).1

/-- C9: when the parsed file, after discarding fully blank rows, has fewer
than 2 rows, the loader reports "no readable rows" and the previously
loaded Listing Table and Schema are returned unchanged. -/
theorem c9_no_readable_rows (st : AppState) (zl : String → Option String)
    (parsed : List (List String)) (h : (discardBlanks parsed).length < 2) :
    loadFile st zl parsed = (st, .noRows) := by
  rcases hd : discardBlanks parsed with - | ⟨r0, rest0⟩
  · unfold loadFile
    rw [hd]
  rcases rest0 with - | ⟨r1, rest⟩
  · unfold loadFile
    rw [hd]
  · rw [hd] at h
    simp at h
    omega

/-- Closed instance of `c9_no_readable_rows`: a file with one blank row
and one data row aborts with "no readable rows" and keeps the prior
state. -/
theorem c9_no_readable_rows_witness :
    (discardBlanks [["", " "], ["X"]]).length < 2 ∧
    loadFile ⟨["A"], [["r"]]⟩ (fun _ => none) [["", " "], ["X"]]
      = (⟨["A"], [["r"]]⟩, .noRows) :=
  ⟨by decide, c9_no_readable_rows ⟨["A"], [["r"]]⟩ (fun _ => none) [["", " "], ["X"]]
    (by decide)⟩

/-- C10: on a displayed column containing a cell that parses as a number
(`"300000"`) and one that does not (`"Call for price"`), the Sort Engine
raises an uncaught comparison error (Python `TypeError`: float compared
with string) instead of producing an ordering. -/
theorem c10_mixed_column_sort_error :
    pyFloat "300000" = some 300000 ∧
    pyFloat "Call for price" = none ∧
    sortByColumn "LIST_PRICE" (fun _ => false) [("300000", 0), ("Call for price", 1)]
      = .error () := by
  exact ⟨by decide, by decide, rfl⟩

/-- C6: each cell is keyed by its parsed number when `float(val)` succeeds
and by its lowercased string otherwise; a successful sort invocation flips
only that column's toggle (ascending when the flag was off, descending
when on) and permutes the displayed items; a column of uniformly-kinded
cells always sorts successfully; and a purely numeric column orders
numerically, e.g. `"9"` before `"10"`. -/
theorem c6_sort_engine :
    (∀ (col : String) (st : SortState) (disp out : List (String × Nat)) (st₁ : SortState),
        sortByColumn col st disp = .ok (out, st₁) →
        st₁ col = !(st col) ∧ (∀ c, c ≠ col → st₁ c = st c) ∧ out.Perm disp) ∧
    (∀ (col : String) (st : SortState) (disp : List (String × Nat)),
        (∀ a ∈ disp, ∀ b ∈ disp, kindB a = kindB b) →
        ∃ out st₁, sortByColumn col st disp = .ok (out, st₁) ∧
          (st col = false → out.Pairwise (fun a b => ¬ EntLtP b a)) ∧
          (st col = true → out.Pairwise (fun a b => ¬ EntLtP a b))) ∧
    (∀ (col : String) (st : SortState) (disp out : List (String × Nat)) (st₁ : SortState),
        (∀ p ∈ disp, (pyFloat p.1).isSome = true) → st col = false →
        sortByColumn col st disp = .ok (out, st₁) →
        out.Pairwise (fun a b => (pyFloat a.1).getD 0 ≤ (pyFloat b.1).getD 0)) ∧
    (∀ (col : String) (st : SortState) (disp out : List (String × Nat)) (st₁ : SortState),
        (∀ p ∈ disp, pyFloat p.1 = none) → st col = false →
        sortByColumn col st disp = .ok (out, st₁) →
        out.Pairwise (fun a b => a.1.toLower ≤ b.1.toLower)) ∧
    ((sortByColumn "NO_BEDROOMS" (fun _ => false) [("10", 0), ("9", 1)]).map Prod.fst
        = .ok [("9", 1), ("10", 0)]) := by
  refine ⟨?_, ?_, ?_, ?_, by rfl⟩
  · intro col st disp out st₁ h
    obtain ⟨s, hs, hout, hst⟩ := sortByColumn_ok h
    subst hst
    refine ⟨by simp, fun c hc => by simp [hc], ?_⟩
    subst hout
    by_cases hrev : st col
    · rw [if_pos hrev]
      exact (List.reverse_perm s).trans (sortM_perm hs)
    · rw [if_neg hrev]
      exact sortM_perm hs
  · intro col st disp hk
    obtain ⟨s, hs⟩ := sortM_ok_of_kind hk
    refine ⟨if st col then s.reverse else s, fun c => if c = col then !(st col) else st c,
      ?_, ?_, ?_⟩
    · unfold sortByColumn
      rw [hs]
    · intro hf
      rw [hf]
      simp only [Bool.false_eq_true, if_false]
      exact sortM_sorted hs
    · intro ht
      rw [ht]
      simp only [if_true]
      exact List.pairwise_reverse.mpr (sortM_sorted hs)
  · intro col st disp out st₁ hnum hf h
    obtain ⟨s, hs, hout, -⟩ := sortByColumn_ok h
    rw [hf] at hout
    simp only [Bool.false_eq_true, if_false] at hout
    subst hout
    have hmem : ∀ p ∈ out, (pyFloat p.1).isSome = true :=
      fun p hp => hnum p ((sortM_perm hs).mem_iff.mp hp)
    refine (sortM_sorted hs).imp_of_mem ?_
    intro a b ha hb hnlt
    obtain ⟨qa, hqa⟩ := Option.isSome_iff_exists.mp (hmem a ha)
    obtain ⟨qb, hqb⟩ := Option.isSome_iff_exists.mp (hmem b hb)
    rw [hqa, hqb]
    simp only [Option.getD_some]
    by_contra hlt
    push_neg at hlt
    exact hnlt (by
      unfold EntLtP
      rw [entLt_num (x := qb) (y := qa) (by simp [pyKeyOf, hqb]) (by simp [pyKeyOf, hqa])]
      exact congrArg Except.ok (decide_eq_true (Or.inl hlt)))
  · intro col st disp out st₁ hstr hf h
    obtain ⟨s, hs, hout, -⟩ := sortByColumn_ok h
    rw [hf] at hout
    simp only [Bool.false_eq_true, if_false] at hout
    subst hout
    have hmem : ∀ p ∈ out, pyFloat p.1 = none :=
      fun p hp => hstr p ((sortM_perm hs).mem_iff.mp hp)
    refine (sortM_sorted hs).imp_of_mem ?_
    intro a b ha hb hnlt
    by_contra hlt
    push_neg at hlt
    exact hnlt (by
      unfold EntLtP
      rw [entLt_str (x := b.1.toLower) (y := a.1.toLower)
        (by simp [pyKeyOf, hmem b hb]) (by simp [pyKeyOf, hmem a ha])]
      exact congrArg Except.ok (decide_eq_true (Or.inl hlt)))

/-- Closed instances of `c6_sort_engine`: a first sort of a numeric column
succeeds and flips only its own toggle, leaving other columns' toggles
unchanged. -/
theorem c6_sort_engine_witness :
    ∃ out st₁,
      sortByColumn "LIST_PRICE" (fun _ => false) [("200", 0), ("100", 1)] = .ok (out, st₁) ∧
      st₁ "LIST_PRICE" = true ∧ st₁ "COUNTY" = false ∧
      out.Perm [("200", 0), ("100", 1)] := by
  obtain ⟨h1, h2, -, -, -⟩ := c6_sort_engine
  obtain ⟨out, st₁, hok, -, -⟩ :=
    h2 "LIST_PRICE" (fun _ => false) [("200", 0), ("100", 1)] (by decide)
  obtain ⟨ha, hb, hc⟩ := h1 _ _ _ _ _ hok
  exact ⟨out, st₁, hok, by rw [ha]; rfl, hb "COUNTY" (by decide), hc⟩

end PropertySearch
